import Mathlib

/-!
Verification of the `abstractshell` expect core (`shell_expect.py`,
`pty_screen.py`).

The embedding works over `List Char` in place of Python strings.  The
decoded-text source that `LineIterator` pulls from (`_read_pty`, which the
repository's tests override to read from an in-memory buffer) is modelled as a
list of chunks: reading pops the head chunk; reading from the empty list
yields the end-of-stream sentinel `SpecialConstants.EOF`, matching both the
mock (an exhausted `StringIO` returns `EOF` forever) and a closed pty fd.
Side effects that do not touch the matching state (echoing via `printfn`)
are dropped.
-/

namespace AbstractShell

/-- A pattern as it may appear in the list handed to `expect_match`:
`str` is an uncompiled pattern string, `compiled` a compiled regular
expression modelled by its anchored-match test (`r.match(text)` succeeds
iff the matcher returns `true`), and `sentinel` is `SpecialConstants.EOF`.
Uncompiled strings never reach the scan loop, because `expect_match`
compiles every string element first. -/
inductive Pattern where
  | str (s : List Char)
  | compiled (m : List Char → Bool)
  | sentinel

/-- Model of `re.compile` applied to a pattern string containing no regex
metacharacters (the shape used throughout the repository's tests):
`re.match` anchors at the start of the text, so the compiled matcher
succeeds exactly when the pattern string is a prefix of the text. -/
def compileLiteral (s : List Char) : List Char → Bool :=
  fun t => s.isPrefixOf t

/-- The `found_match` record of `LineIterator.next_line`: the pattern's
list index `j` and the scanned prefix `to_match` it succeeded on.  (The
source also stores the compiled pattern and the match object; the claims
only consult the index and the text.) -/
structure FoundMatch where
  idx : Nat
  toMatch : List Char
deriving DecidableEq

/-- The inner `for (j, r_ex) in enumerate(match_re)` loop of `next_line`:
skip sentinel entries (`isinstance(r_ex, SpecialConstants): continue`)
while still counting their index, and return the index of the first
compiled pattern whose matcher succeeds on `pre`.  Uncompiled `str`
entries cannot occur here (`expect_match` compiles them before the scan);
they are skipped like sentinels. -/
def firstMatchAux : List Pattern → Nat → List Char → Option Nat
  | [], _, _ => none
  | Pattern.sentinel :: rest, j, pre => firstMatchAux rest (j + 1) pre
  | Pattern.str _ :: rest, j, pre => firstMatchAux rest (j + 1) pre
  | Pattern.compiled m :: rest, j, pre =>
      if m pre then some j else firstMatchAux rest (j + 1) pre

/-- The value `LineIterator.next_line` hands back to `expect_match`:
`eof` and `noLine` are `SpecialConstants.EOF` / `SpecialConstants.NO_LINE`;
`unmatched line` is the tuple `(None, None, line, None)`; `matched` is a
`found_match` tuple `(r_ex, j, to_match, match)`. -/
inductive LineToken where
  | eof
  | noLine
  | unmatched (line : List Char)
  | matched (idx : Nat) (toMatch : List Char)
deriving DecidableEq

/-- The mutable state of a `LineIterator`: the pending partial-line text
`buffer`, plus the decoded chunks still to be produced by
`self.interaction._read_pty()` (head chunk first; an empty head chunk is a
read that returned `""`; the empty list is a stream at end-of-stream). -/
structure LineIterator where
  chunks : List (List Char)
  buffer : List Char
deriving DecidableEq

/-- The scan loop of `next_line` (`i = 0; while i < len(self.buffer): ...`).
`buffer` is the full buffer being scanned (`self.buffer`, unchanged during
the scan), `rest` the suffix from position `i` on, `found` the
`found_match` accumulator.  Each iteration first tests every pattern
against the prefix `buffer[0 : i + 1]` (when the pattern list is
non-empty), then consumes a `"\r\n"` or `"\n"` terminator and stops, or
advances.  Returns the final `i` and `found_match`. -/
def scanLoop (pats : List Pattern) (buffer : List Char) :
    List Char → Nat → Option FoundMatch → Nat × Option FoundMatch
  | [], i, found => (i, found)
  | c :: rest, i, found =>
    let found' :=
      if pats.isEmpty then found
      else
        match firstMatchAux pats 0 (buffer.take (i + 1)) with
        | some j => some ⟨j, buffer.take (i + 1)⟩
        | none => found
    if c = '\r' ∧ rest.head? = some '\n' then (i + 2, found')
    else if c = '\n' then (i + 1, found')
    else scanLoop pats buffer rest (i + 1) found'

/-- The tail of `next_line` once a non-empty working buffer `b` is in hand:
run the scan, cut the consumed part out of the buffer, and return either
the `found_match` or the consumed text as an unmatched line. -/
def nextLineScan (pats : List Pattern) (chunks : List (List Char))
    (b : List Char) : LineToken × LineIterator :=
  let res := scanLoop pats b b 0 none
  let line := b.take res.1
  let buffer' := b.drop res.1
  match res.2 with
  | some fm => (LineToken.matched fm.idx fm.toMatch, ⟨chunks, buffer'⟩)
  | none => (LineToken.unmatched line, ⟨chunks, buffer'⟩)

/-- `LineIterator.next_line(match_re)`.  When the buffer is empty it
performs one `_read_pty()`: end-of-stream returns `eof`, an empty read
returns `noLine`, and text becomes the working buffer; then the scan loop
runs as in `nextLineScan`. -/
def LineIterator.next_line (pats : List Pattern) (st : LineIterator) :
    LineToken × LineIterator :=
  match st.buffer with
  | [] =>
    match st.chunks with
    | [] => (LineToken.eof, st)
    | c :: rest =>
      if c = [] then (LineToken.noLine, ⟨rest, []⟩)
      else nextLineScan pats rest c
  | b => nextLineScan pats st.chunks b

/-- Result of `LineIterator.exhaust_buffer`: either the sentinel
`SpecialConstants.EOF` or the drained text (possibly empty). -/
inductive ExhaustRes where
  | eof
  | text (s : List Char)
deriving DecidableEq

/-- `LineIterator.exhaust_buffer()`: one `_read_pty()`; at end-of-stream
return the pending buffer, or the sentinel if it is empty (`return buf or
SpecialConstants.EOF`); otherwise return pending buffer plus the fresh
chunk.  The pending buffer is cleared in every case. -/
def LineIterator.exhaust_buffer (st : LineIterator) :
    ExhaustRes × LineIterator :=
  match st.chunks with
  | [] =>
    (if st.buffer = [] then ExhaustRes.eof else ExhaustRes.text st.buffer,
      ⟨[], []⟩)
  | c :: rest => (ExhaustRes.text (st.buffer ++ c), ⟨rest, []⟩)

/-! ### Terminator-scan reference functions

Specification-side descriptions of how far the scan loop travels and which
prefixes it tests, used to characterise `scanLoop`. -/

/-- Number of characters `scanLoop` consumes from `rest`: up to and
including the first `"\r\n"` or `"\n"` terminator, or the whole text when
no terminator occurs. -/
def termLen : List Char → Nat
  | [] => 0
  | c :: rest =>
    if c = '\r' ∧ rest.head? = some '\n' then 2
    else if c = '\n' then 1
    else 1 + termLen rest

/-- Number of scan positions at which `scanLoop` tests the patterns: one
per character up to and including the character that starts the
terminator. -/
def testedCount : List Char → Nat
  | [] => 0
  | c :: rest =>
    if c = '\r' ∧ rest.head? = some '\n' then 1
    else if c = '\n' then 1
    else 1 + testedCount rest

/-- One pattern-probe step: test the patterns against prefix `pre` and
overwrite the accumulated match on success (first pattern in list order
wins within this prefix), keep the accumulator on failure. -/
def matchStep (pats : List Pattern) (found : Option FoundMatch)
    (pre : List Char) : Option FoundMatch :=
  if pats.isEmpty then found
  else
    match firstMatchAux pats 0 pre with
    | some j => some ⟨j, pre⟩
    | none => found

/-- The prefixes of `buffer` probed by the scan starting at position `i`,
in scan order. -/
def scannedPrefixes (buffer : List Char) (i : Nat) : List (List Char) :=
  (List.range (testedCount (buffer.drop i))).map fun p =>
    buffer.take (i + p + 1)

/-! ### Screen sink (`pty_screen.py`) -/

/-- The state of a `TextBufferScreen`: the accumulating `io.StringIO`
buffer and the terminal title. -/
structure TextBufferScreen where
  buffer : List Char
  title : List Char
deriving DecidableEq

/-- `TextBufferScreen.draw(text)`: append verbatim to the buffer. -/
def TextBufferScreen.draw (s : TextBufferScreen) (text : List Char) :
    TextBufferScreen :=
  { s with buffer := s.buffer ++ text }

/-- `TextBufferScreen.readbuffer()`: return the buffer contents and reset
the buffer to a fresh empty `StringIO`. -/
def TextBufferScreen.readbuffer (s : TextBufferScreen) :
    List Char × TextBufferScreen :=
  (s.buffer, { s with buffer := [] })

/-! ### Expect engine (`PtyShellExpect`) -/

/-- The exception raised by `expect_match` when the stream ends without the
sentinel among the patterns. -/
inductive ShellExpectEOF where
  | mk
deriving DecidableEq

/-- The mutable state of a `PtyShellExpect` session that the claims
observe: the line iterator (which owns the pending buffer and the decoded
chunk source) together with `current_output_lines` and `line_history`. -/
structure PtyShellExpect where
  line_itr : LineIterator
  current_output_lines : List (List Char)
  line_history : List LineToken
deriving DecidableEq

/-- A fresh session whose decoded stream will produce the given chunks. -/
def PtyShellExpect.init (chunks : List (List Char)) : PtyShellExpect :=
  ⟨⟨chunks, []⟩, [], []⟩

/-- `PtyShellExpect.current_output`: `"".join(self.current_output_lines)`. -/
def PtyShellExpect.current_output (st : PtyShellExpect) : List Char :=
  st.current_output_lines.flatten

/-- `isinstance(r, SpecialConstants)` for a pattern list element. -/
def isSentinel : Pattern → Bool
  | Pattern.sentinel => true
  | _ => false

/-- `SpecialConstants.EOF in regex`. -/
def hasSentinel (pats : List Pattern) : Bool :=
  pats.any isSentinel

/-- `regex.index(SpecialConstants.EOF)`: index of the first sentinel
(only consulted when `hasSentinel` holds). -/
def sentinelIndex : List Pattern → Nat
  | [] => 0
  | p :: rest => if isSentinel p then 0 else 1 + sentinelIndex rest

/-- The in-place compilation step of `expect_match`
(`for (i, r) in enumerate(regex): if isinstance(r, str): regex[i] =
re.compile(r)`): each string element is replaced by its compiled form;
sentinel and already-compiled elements are untouched.  `rc` models
`re.compile`. -/
def compileStep (rc : List Char → List Char → Bool) : Pattern → Pattern
  | Pattern.str s => Pattern.compiled (rc s)
  | p => p

/-- The caller's pattern list after `expect_match`'s compilation phase. -/
def compilePatterns (rc : List Char → List Char → Bool)
    (raw : List Pattern) : List Pattern :=
  raw.map (compileStep rc)

/-- A successful outcome of `expect_match`: either `return match, i` after
a pattern matched, or `return SpecialConstants.EOF, regex.index(EOF)`
when the stream ended with the sentinel among the patterns. -/
inductive ExpectRes where
  | matched (idx : Nat) (toMatch : List Char)
  | eofMatched (idx : Nat)
deriving DecidableEq

/-- The `while True` loop of `expect_match`, with explicit fuel (`none`
means the fuel ran out while the loop was still polling; every terminating
run of the source corresponds to some sufficient fuel).  Each round calls
`next_line`; every non-`noLine` token is appended to `line_history`;
an unmatched line is also appended to `current_output_lines`; a match
returns; end-of-stream returns the sentinel's index or raises
`ShellExpectEOF`. -/
def expectLoop (pats : List Pattern) :
    Nat → PtyShellExpect →
    Option (Except ShellExpectEOF (ExpectRes × PtyShellExpect))
  | 0, _ => none
  | fuel + 1, st =>
    let r := LineIterator.next_line pats st.line_itr
    let st1 : PtyShellExpect := { st with line_itr := r.2 }
    match r.1 with
    | LineToken.noLine => expectLoop pats fuel st1
    | LineToken.eof =>
      let st2 :=
        { st1 with line_history := st1.line_history ++ [LineToken.eof] }
      if hasSentinel pats then
        some (Except.ok (ExpectRes.eofMatched (sentinelIndex pats), st2))
      else some (Except.error ShellExpectEOF.mk)
    | LineToken.matched j tm =>
      let st2 :=
        { st1 with
          line_history := st1.line_history ++ [LineToken.matched j tm] }
      some (Except.ok (ExpectRes.matched j tm, st2))
    | LineToken.unmatched line =>
      let st2 :=
        { st1 with
          line_history := st1.line_history ++ [LineToken.unmatched line],
          current_output_lines := st1.current_output_lines ++ [line] }
      expectLoop pats fuel st2

/-- `PtyShellExpect.expect_match(regex, ...)`: compile every string in the
caller's pattern list in place, reset `current_output_lines`, and run the
match loop.  The first component of the result is the pattern list as the
caller observes it after the call (the in-place mutation persists whether
the loop returns or raises). -/
def PtyShellExpect.expect_match (fuel : Nat)
    (rc : List Char → List Char → Bool) (raw : List Pattern)
    (st : PtyShellExpect) :
    Option (List Pattern ×
      Except ShellExpectEOF (ExpectRes × PtyShellExpect)) :=
  let compiled := compilePatterns rc raw
  let st' := { st with current_output_lines := [] }
  (expectLoop compiled fuel st').map fun e => (compiled, e)

/-- The index `PtyShellExpect.expect` extracts from an `expect_match`
result (`(res, i) = self.expect_match(...) or (None, None); return i`). -/
def resIndex : ExpectRes → Nat
  | ExpectRes.matched i _ => i
  | ExpectRes.eofMatched i => i

/-- `PtyShellExpect.expect(regex, ...)`: run `expect_match` and keep only
the matched index (and the session state for chaining calls). -/
def PtyShellExpect.expect (fuel : Nat)
    (rc : List Char → List Char → Bool) (raw : List Pattern)
    (st : PtyShellExpect) :
    Option (Except ShellExpectEOF (Nat × PtyShellExpect)) :=
  (PtyShellExpect.expect_match fuel rc raw st).map fun pr =>
    pr.2.map fun rs => (resIndex rs.1, rs.2)

/-- The text of an unmatched-line token, for relating
`current_output_lines` to the tokens recorded in `line_history`. -/
def unmatchedText : LineToken → Option (List Char)
  | LineToken.unmatched line => some line
  | _ => none

/-! ### Concrete test scenarios from `tests/test_line_iterator.py` -/

/-- The pattern list `[shell_expect.EOF, "Test Output"]` of
`test_expect_simple_case` / `test_expect_lf_only`. -/
def testOutputPats : List Pattern :=
  [Pattern.sentinel, Pattern.str "Test Output".data]

/-- Run two successive `expect([EOF, "Test Output"])` calls against a
session whose stream produces the single chunk `chunk` and then closes,
returning the two matched indices (or `none` if either call failed to
return normally). -/
def runExpectTwice (chunk : List Char) : Option (Nat × Nat) :=
  match PtyShellExpect.expect 4 compileLiteral testOutputPats
      (PtyShellExpect.init [chunk]) with
  | some (Except.ok (i1, st1)) =>
    match PtyShellExpect.expect 4 compileLiteral testOutputPats st1 with
    | some (Except.ok (i2, _)) => some (i1, i2)
    | _ => none
  | _ => none

/-- The `test_current_output` scenario: stream
`"BEGIN\r\nHello World\r\nEND\r\n"`, then `expect("BEGIN")`,
`expect("END")`, `expect(EOF)` (single patterns are wrapped in a
one-element list, as the source does).  Returns `current_output` after
each of the three calls. -/
def runBeginEnd : Option (List Char × List Char × List Char) :=
  match PtyShellExpect.expect_match 8 compileLiteral
      [Pattern.str "BEGIN".data]
      (PtyShellExpect.init ["BEGIN\r\nHello World\r\nEND\r\n".data]) with
  | some (_, Except.ok (_, st1)) =>
    match PtyShellExpect.expect_match 8 compileLiteral
        [Pattern.str "END".data] st1 with
    | some (_, Except.ok (_, st2)) =>
      match PtyShellExpect.expect_match 8 compileLiteral
          [Pattern.sentinel] st2 with
      | some (_, Except.ok (_, st3)) =>
        some (st1.current_output, st2.current_output, st3.current_output)
      | _ => none
    | _ => none
  | _ => none

/-! ### Transport adapter (`_read`, `_read_pty_raw`,
`RemotePtyShellExpect._read`) -/

/-- Outcome of one `PtyShellExpect._read(n)` call: the sentinel
`SpecialConstants.EOF`, or a byte string (possibly `b""` when `select`
reported nothing readable). -/
inductive LowRead where
  | eofR
  | dataR (bs : List Nat)
deriving DecidableEq

/-- Outcome of the accumulating reads `_read_pty_raw` and
`RemotePtyShellExpect._read`: the sentinel or the collected bytes. -/
inductive RawReadResult where
  | eofR
  | bytes (bs : List Nat)
deriving DecidableEq

/-- What one `os.read` attempt looks like to `PtyShellExpect._read`:
`select` reported nothing ready, `os.read` raised `OSError`, or bytes
were read. -/
inductive OsRead where
  | notReady
  | osError
  | ok (bs : List Nat)
deriving DecidableEq

/-- `PtyShellExpect._read(n)`: a closed fd (`self.ptyproc.fd < 0`) or an
`OSError` from `os.read` yields the sentinel; an empty `select` poll
yields `b""`; otherwise the bytes read. -/
def ptyRead (fdClosed : Bool) (r : OsRead) : LowRead :=
  if fdClosed then LowRead.eofR
  else
    match r with
    | OsRead.notReady => LowRead.dataR []
    | OsRead.osError => LowRead.eofR
    | OsRead.ok bs => LowRead.dataR bs

/-- `PtyShellExpect._read_pty_raw`: accumulate `_read` results while
`_continue_read()` holds.  `cont k` and `rd k` are the answers the
underlying process and fd give to the `k`-th iteration's liveness check
and read; `fuel` bounds the number of iterations (`none` = still looping).
The sentinel answer with bytes already collected returns the bytes; an
empty read returns the collected bytes; a failed liveness check returns
the sentinel only when nothing was collected. -/
def readPtyRawLoop (cont : Nat → Bool) (rd : Nat → LowRead) :
    Nat → Nat → List Nat → Option RawReadResult
  | 0, _, _ => none
  | fuel + 1, k, buf =>
    if cont k then
      match rd k with
      | LowRead.eofR =>
        if buf.isEmpty then some RawReadResult.eofR
        else some (RawReadResult.bytes buf)
      | LowRead.dataR bs =>
        if bs.isEmpty then some (RawReadResult.bytes buf)
        else readPtyRawLoop cont rd fuel (k + 1) (buf ++ bs)
    else
      if buf.isEmpty then some RawReadResult.eofR
      else some (RawReadResult.bytes buf)

/-- Outcome of one `RemotePtyShellExpect._read1byte()` call: channel EOF
(`stdout.read(1)` returned `b""`), a `socket.timeout` (nothing available
right now), or one byte. -/
inductive Read1 where
  | eof1
  | timeout1
  | byte1 (b : Nat)
deriving DecidableEq

/-- `RemotePtyShellExpect._read(n)`: assemble up to `n` bytes one
`_read1byte` at a time (`rd1 k` is the `k`-th answer); channel EOF with
bytes collected returns the bytes, EOF with nothing collected returns the
sentinel, and a timeout returns whatever was collected. -/
def remoteRead (rd1 : Nat → Read1) : Nat → Nat → List Nat → RawReadResult
  | 0, _, buf => RawReadResult.bytes buf
  | n + 1, k, buf =>
    match rd1 k with
    | Read1.eof1 =>
      if buf.isEmpty then RawReadResult.eofR else RawReadResult.bytes buf
    | Read1.timeout1 => RawReadResult.bytes buf
    | Read1.byte1 b => remoteRead rd1 n (k + 1) (buf ++ [b])

/-! ### Lemmas about the scan loop -/

theorem drop_cons_of_drop {buffer r' : List Char} {c : Char} {i : Nat}
    (h : c :: r' = buffer.drop i) : r' = buffer.drop (i + 1) := by
  have h1 : buffer.drop (i + 1) = (buffer.drop i).drop 1 := by
    rw [List.drop_drop, Nat.add_comm]
  rw [h1, ← h]
  rfl

theorem scanLoop_eq (pats : List Pattern) (buffer : List Char) :
    ∀ (r : List Char) (i : Nat) (f : Option FoundMatch),
      r = buffer.drop i →
      scanLoop pats buffer r i f =
        (i + termLen r,
          (scannedPrefixes buffer i).foldl (matchStep pats) f)
  | [], i, f, h => by
      simp [scanLoop, termLen, scannedPrefixes, ← h, testedCount]
  | c :: r', i, f, h => by
      have hdrop : r' = buffer.drop (i + 1) := drop_cons_of_drop h
      have hpre : scannedPrefixes buffer i =
          (List.range (testedCount (c :: r'))).map fun p =>
            buffer.take (i + p + 1) := by
        rw [scannedPrefixes, ← h]
      by_cases hA : c = '\r' ∧ r'.head? = some '\n'
      · simp only [scanLoop, termLen, if_pos hA, hpre, testedCount]
        have hr1 : List.range 1 = [0] := rfl
        simp only [hr1, List.map_cons, List.map_nil,
          List.foldl_cons, List.foldl_nil, Nat.add_zero]
        rfl
      · by_cases hB : c = '\n'
        · simp only [scanLoop, termLen, if_neg hA, if_pos hB, hpre,
            testedCount]
          have hr1 : List.range 1 = [0] := rfl
          simp only [hr1, List.map_cons, List.map_nil,
            List.foldl_cons, List.foldl_nil, Nat.add_zero]
          rfl
        · have ih := scanLoop_eq pats buffer r' (i + 1)
            (matchStep pats f (buffer.take (i + 1))) hdrop
          simp only [scanLoop, termLen, if_neg hA, if_neg hB, hpre,
            testedCount]
          have hfound :
              (if pats.isEmpty then f
               else
                match firstMatchAux pats 0 (buffer.take (i + 1)) with
                | some j => some ⟨j, buffer.take (i + 1)⟩
                | none => f) = matchStep pats f (buffer.take (i + 1)) := rfl
          rw [hfound, ih]
          have hrange : (1 : Nat) + testedCount r' = testedCount r' + 1 :=
            Nat.add_comm _ _
          rw [hrange, List.range_succ_eq_map]
          simp only [List.map_cons, List.map_map, List.foldl_cons,
            Nat.add_zero, Prod.mk.injEq]
          refine ⟨by omega, ?_⟩
          have hcomp :
              ((fun p => buffer.take (i + p + 1)) ∘ Nat.succ) =
                fun p => buffer.take (i + 1 + p + 1) := by
            funext p
            have harith : i + (p + 1) + 1 = i + 1 + p + 1 := by omega
            simp [Function.comp, Nat.succ_eq_add_one, harith]
          rw [hcomp, scannedPrefixes, ← hdrop]

theorem termLen_of_no_lf {l : List Char} (h : '\n' ∉ l) :
    termLen l = l.length := by
  induction l with
  | nil => rfl
  | cons c r' ih =>
    have hc : c ≠ '\n' := fun hc => h (hc ▸ List.mem_cons_self c r')
    have hA : ¬(c = '\r' ∧ r'.head? = some '\n') := by
      rintro ⟨-, hh⟩
      exact h (List.mem_cons_of_mem c (List.mem_of_mem_head? hh))
    rw [termLen, if_neg hA, if_neg hc,
      ih fun hm => h (List.mem_cons_of_mem c hm)]
    simp [Nat.add_comm]

theorem testedCount_le_length (l : List Char) : testedCount l ≤ l.length := by
  induction l with
  | nil => simp [testedCount]
  | cons c r' ih =>
    rw [testedCount]
    split
    · simp
    · split
      · simp
      · simpa [Nat.add_comm, List.length_cons] using ih

theorem foldl_matchStep_none {pats : List Pattern} {l : List (List Char)}
    (h : ∀ pre ∈ l, firstMatchAux pats 0 pre = none) :
    l.foldl (matchStep pats) none = none := by
  induction l with
  | nil => rfl
  | cons x l' ih =>
    have hx : matchStep pats none x = none := by
      rw [matchStep, h x (List.mem_cons_self x l')]
      split <;> rfl
    rw [List.foldl_cons, hx]
    exact ih fun pre hp => h pre (List.mem_cons_of_mem x hp)

/-! ### Lemmas about pattern testing and the expect loop -/

/-- Whether a pattern participates in the scan's match test with success:
only a compiled pattern whose matcher accepts the prefix does (sentinels
are skipped, and uncompiled strings never reach the scan). -/
def patActive : Pattern → List Char → Bool
  | Pattern.compiled m, pre => m pre
  | _, _ => false

theorem firstMatchAux_shift (pats : List Pattern) (k : Nat)
    (pre : List Char) :
    firstMatchAux pats k pre = (firstMatchAux pats 0 pre).map (· + k) := by
  induction pats generalizing k with
  | nil => rfl
  | cons p rest ih =>
    cases p with
    | sentinel =>
      rw [firstMatchAux, firstMatchAux, ih (k + 1), ih 1,
        Option.map_map]
      congr 1
      funext a
      simp only [Function.comp_apply]
      omega
    | str s =>
      rw [firstMatchAux, firstMatchAux, ih (k + 1), ih 1,
        Option.map_map]
      congr 1
      funext a
      simp only [Function.comp_apply]
      omega
    | compiled m =>
      rw [firstMatchAux, firstMatchAux]
      by_cases hm : m pre
      · simp [hm]
      · rw [if_neg hm, if_neg hm, ih (k + 1), ih 1, Option.map_map]
        congr 1
        funext a
        simp only [Function.comp_apply]
        omega

theorem firstMatchAux_order (pats : List Pattern) (pre : List Char)
    (j : Nat) (h : firstMatchAux pats 0 pre = some j) :
    ∃ p, pats[j]? = some p ∧ patActive p pre = true ∧
      ∀ t q, t < j → pats[t]? = some q → patActive q pre = false := by
  induction pats generalizing j with
  | nil => exact absurd h (by simp [firstMatchAux])
  | cons p rest ih =>
    have step : ∀ (hskip : patActive p pre = false),
        firstMatchAux rest 1 pre = some j →
        ∃ q, (p :: rest)[j]? = some q ∧ patActive q pre = true ∧
          ∀ t q', t < j → (p :: rest)[t]? = some q' →
            patActive q' pre = false := by
      intro hskip hr
      rw [firstMatchAux_shift] at hr
      rcases Option.map_eq_some'.mp hr with ⟨j', hj', hjj⟩
      rcases ih j' hj' with ⟨q, hq, hqa, hord⟩
      refine ⟨q, ?_, hqa, ?_⟩
      · rw [← hjj]
        simpa using hq
      · intro t q' ht hq'
        cases t with
        | zero =>
          simp only [List.getElem?_cons_zero, Option.some_inj] at hq'
          rw [← hq']
          exact hskip
        | succ t' =>
          simp only [List.getElem?_cons_succ] at hq'
          exact hord t' q' (by omega) hq'
    cases p with
    | sentinel => exact step rfl h
    | str s => exact step rfl h
    | compiled m =>
      rw [firstMatchAux] at h
      by_cases hm : m pre
      · rw [if_pos hm, Option.some_inj] at h
        subst h
        exact ⟨Pattern.compiled m, by simp, hm,
          fun t q ht => absurd ht (by omega)⟩
      · rw [if_neg hm] at h
        exact step (by simpa [patActive] using hm) h

theorem isSentinel_compileStep (rc : List Char → List Char → Bool)
    (p : Pattern) : isSentinel (compileStep rc p) = isSentinel p := by
  cases p <;> rfl

theorem hasSentinel_compilePatterns (rc : List Char → List Char → Bool)
    (raw : List Pattern) :
    hasSentinel (compilePatterns rc raw) = hasSentinel raw := by
  simp only [hasSentinel, compilePatterns, List.any_map]
  congr 1
  funext p
  exact isSentinel_compileStep rc p

theorem expectLoop_shape (pats : List Pattern) (hs : hasSentinel pats = false) :
    ∀ (fuel : Nat) (st : PtyShellExpect) r,
      expectLoop pats fuel st = some r →
      r = Except.error ShellExpectEOF.mk ∨
        ∃ i tm st', r = Except.ok (ExpectRes.matched i tm, st')
  | 0, _, _, h => by simp [expectLoop] at h
  | fuel + 1, st, r, h => by
    rw [expectLoop] at h
    split at h
    · exact expectLoop_shape pats hs fuel _ r h
    · simp only [hs, Bool.false_eq_true, if_false, Option.some_inj] at h
      exact Or.inl h.symm
    · rename_i j tm heq
      simp only [Option.some_inj] at h
      exact Or.inr ⟨j, tm, _, h.symm⟩
    · exact expectLoop_shape pats hs fuel _ r h

theorem expectLoop_delta (pats : List Pattern) :
    ∀ (fuel : Nat) (st : PtyShellExpect) res st',
      expectLoop pats fuel st = some (Except.ok (res, st')) →
      ∃ toks, st'.line_history = st.line_history ++ toks ∧
        st'.current_output_lines =
          st.current_output_lines ++ toks.filterMap unmatchedText
  | 0, _, _, _, h => by simp [expectLoop] at h
  | fuel + 1, st, res, st', h => by
    rw [expectLoop] at h
    split at h
    · rcases expectLoop_delta pats fuel _ res st' h with ⟨toks, h1, h2⟩
      exact ⟨toks, h1, h2⟩
    · by_cases hs : hasSentinel pats
      · simp only [hs, if_true, Option.some_inj, Except.ok.injEq,
          Prod.mk.injEq] at h
        refine ⟨[LineToken.eof], ?_, ?_⟩
        · rw [← h.2]
        · rw [← h.2]
          simp [unmatchedText]
      · simp only [hs, Bool.false_eq_true, if_false, Option.some_inj] at h
        cases h
    · rename_i j tm heq
      simp only [Option.some_inj, Except.ok.injEq, Prod.mk.injEq] at h
      refine ⟨[LineToken.matched j tm], ?_, ?_⟩
      · rw [← h.2]
      · rw [← h.2]
        simp [unmatchedText]
    · rename_i line heq
      rcases expectLoop_delta pats fuel _ res st' h with ⟨toks, h1, h2⟩
      refine ⟨LineToken.unmatched line :: toks, ?_, ?_⟩
      · rw [h1]
        simp
      · rw [h2]
        simp [unmatchedText]

theorem foldl_draw_buffer (texts : List (List Char)) :
    ∀ s : TextBufferScreen,
      (List.foldl TextBufferScreen.draw s texts).buffer =
        s.buffer ++ texts.flatten := by
  induction texts with
  | nil => intro s; simp
  | cons t rest ih =>
    intro s
    rw [List.foldl_cons, ih, List.flatten_cons, TextBufferScreen.draw,
      List.append_assoc]

/-- The token produced by a scan over a non-empty working buffer is never
`noLine`: the scan always emits a match or an unmatched line. -/
theorem nextLineScan_fst_ne_noLine (pats : List Pattern)
    (chunks : List (List Char)) (b : List Char) :
    (nextLineScan pats chunks b).1 ≠ LineToken.noLine := by
  rw [nextLineScan]
  rcases h2 : (scanLoop pats b b 0 none).2 with _ | fm <;> simp [h2]

/-- `_read_pty_raw` returns the EOF sentinel only when no bytes at all
were collected before the closed condition was observed. -/
theorem readPtyRawLoop_eof_empty (cont : Nat → Bool) (rd : Nat → LowRead) :
    ∀ (fuel k : Nat) (buf : List Nat),
      readPtyRawLoop cont rd fuel k buf = some RawReadResult.eofR →
      buf = []
  | 0, k, buf, h => by simp [readPtyRawLoop] at h
  | fuel + 1, k, buf, h => by
    rw [readPtyRawLoop] at h
    by_cases hc : cont k
    · rw [if_pos hc] at h
      rcases hrd : rd k with _ | bs <;> simp only [hrd] at h
      · by_cases hb : buf.isEmpty
        · exact List.isEmpty_iff.mp hb
        · rw [if_neg hb] at h
          exact absurd (Option.some_inj.mp h) (by simp)
      · by_cases hb : bs.isEmpty
        · rw [if_pos hb] at h
          exact absurd (Option.some_inj.mp h) (by simp)
        · rw [if_neg hb] at h
          have hmain := readPtyRawLoop_eof_empty cont rd fuel (k + 1)
            (buf ++ bs) h
          exact (List.append_eq_nil.mp hmain).1
    · rw [if_neg hc] at h
      by_cases hb : buf.isEmpty
      · exact List.isEmpty_iff.mp hb
      · rw [if_neg hb] at h
        exact absurd (Option.some_inj.mp h) (by simp)

/-- The remote `_read` returns the EOF sentinel only when no bytes at all
were assembled before the channel EOF was observed. -/
theorem remoteRead_eof_empty (rd1 : Nat → Read1) :
    ∀ (n k : Nat) (buf : List Nat),
      remoteRead rd1 n k buf = RawReadResult.eofR → buf = []
  | 0, k, buf, h => by simp [remoteRead] at h
  | n + 1, k, buf, h => by
    rw [remoteRead] at h
    rcases hrd : rd1 k with _ | _ | b <;> simp only [hrd] at h
    · by_cases hb : buf.isEmpty
      · exact List.isEmpty_iff.mp hb
      · rw [if_neg hb] at h
        exact absurd h (by simp)
    · exact absurd h (by simp)
    · have hmain := remoteRead_eof_empty rd1 n (k + 1) (buf ++ [b]) h
      exact absurd hmain (by simp)

/-! ### Claim theorems -/

/-- C2: against a stream producing exactly `"Test Output\r\n"` and then
closing, `expect([END_OF_STREAM, "Test Output"])` returns index 1 and a
second call on the exhausted stream returns index 0; the LF-only stream
`"Test Output\n"` produces identical results, so CRLF and bare-LF
termination are treated equivalently. -/
theorem expect_test_output_crlf_lf :
    runExpectTwice "Test Output\r\n".data = some (1, 0) ∧
    runExpectTwice "Test Output\n".data = some (1, 0) ∧
    runExpectTwice "Test Output\r\n".data =
      runExpectTwice "Test Output\n".data := by
  refine ⟨by decide, by decide, by decide⟩

/-- C6: draining the screen sink after any sequence of `draw` calls
returns exactly the concatenation, in order, of all text appended since
the previous drain, and a second `readbuffer` with no intervening writes
returns the empty string. -/
theorem draw_readbuffer_roundtrip (s : TextBufferScreen)
    (texts : List (List Char)) :
    (TextBufferScreen.readbuffer
        (List.foldl TextBufferScreen.draw
          (TextBufferScreen.readbuffer s).2 texts)).1 = texts.flatten ∧
    (TextBufferScreen.readbuffer
        (TextBufferScreen.readbuffer
          (List.foldl TextBufferScreen.draw
            (TextBufferScreen.readbuffer s).2 texts)).2).1 = [] := by
  constructor
  · have h := foldl_draw_buffer texts (TextBufferScreen.readbuffer s).2
    simpa [TextBufferScreen.readbuffer] using h
  · rfl

/-- C7: for the stream `"BEGIN\r\nHello World\r\nEND\r\n"`,
`expect("BEGIN")` then `expect("END")` leaves `current_output` equal to
`"Hello World\r\n"` (and a further `expect(EOF)` resets it to empty); in
general the output window is reset at the start of each `expect_match`
call and ends up holding exactly the unmatched line texts consumed during
that call, in order. -/
theorem expect_current_output_window :
    runBeginEnd = some ([], "Hello World\r\n".data, []) ∧
    ∀ (fuel : Nat) (rc : List Char → List Char → Bool)
      (raw : List Pattern) (st : PtyShellExpect) pl res st',
      PtyShellExpect.expect_match fuel rc raw st =
        some (pl, Except.ok (res, st')) →
      ∃ toks, st'.line_history = st.line_history ++ toks ∧
        st'.current_output_lines = toks.filterMap unmatchedText := by
  constructor
  · decide
  · intro fuel rc raw st pl res st' h
    rw [PtyShellExpect.expect_match] at h
    rcases Option.map_eq_some'.mp h with ⟨e, he, hpe⟩
    injection hpe with hp1 hp2
    rw [hp2] at he
    rcases expectLoop_delta (compilePatterns rc raw) fuel _ res st' he with
      ⟨toks, h1, h2⟩
    exact ⟨toks, h1, by simpa using h2⟩

/-- C7 witness: the general window contract applied to the concrete run
`expect_match("A")` on the one-chunk stream `"A\n"`. -/
theorem expect_current_output_window_witness :
    ∃ toks,
      (⟨⟨[], []⟩, [], [LineToken.matched 0 "A\n".data]⟩ :
          PtyShellExpect).line_history =
        (PtyShellExpect.init ["A\n".data]).line_history ++ toks ∧
      (⟨⟨[], []⟩, [], [LineToken.matched 0 "A\n".data]⟩ :
          PtyShellExpect).current_output_lines =
        toks.filterMap unmatchedText :=
  expect_current_output_window.2 3 compileLiteral [Pattern.str "A".data]
    (PtyShellExpect.init ["A\n".data])
    (compilePatterns compileLiteral [Pattern.str "A".data])
    (ExpectRes.matched 0 "A\n".data)
    ⟨⟨[], []⟩, [], [LineToken.matched 0 "A\n".data]⟩ rfl

/-- C9: `exhaust_buffer` yields the EOF sentinel exactly when the pull
reports end-of-stream and the pending partial-line buffer is empty; when
the stream has ended but pending text remains, the text is returned
instead of the sentinel; and the pending buffer is empty after every
call. -/
theorem exhaust_buffer_spec (st : LineIterator) :
    ((LineIterator.exhaust_buffer st).1 = ExhaustRes.eof ↔
      st.chunks = [] ∧ st.buffer = []) ∧
    (st.chunks = [] → st.buffer ≠ [] →
      (LineIterator.exhaust_buffer st).1 = ExhaustRes.text st.buffer) ∧
    (LineIterator.exhaust_buffer st).2.buffer = [] := by
  rcases st with ⟨chunks, buffer⟩
  cases chunks with
  | nil =>
    by_cases hb : buffer = []
    · subst hb
      simp [LineIterator.exhaust_buffer]
    · simp [LineIterator.exhaust_buffer, hb]
  | cons c rest => simp [LineIterator.exhaust_buffer]

/-- C9 witness: a stream at end-of-stream with pending text `"ab"` returns
the text, not the sentinel. -/
theorem exhaust_buffer_spec_witness :
    (LineIterator.exhaust_buffer ⟨[], "ab".data⟩).1 =
      ExhaustRes.text "ab".data :=
  (exhaust_buffer_spec ⟨[], "ab".data⟩).2.1 rfl (by decide)

/-- C1: when the pattern list contains no END_OF_STREAM sentinel, every
terminating `expect_match` run either raised `ShellExpectEOF` or returned
a genuine pattern match — reaching end-of-stream before a match always
raises, never returns a normal result; in particular the empty stream
(zero bytes ever) raises on the very first call. -/
theorem expect_eof_without_sentinel_raises :
    (∀ (rc : List Char → List Char → Bool) (raw : List Pattern)
       (chunks : List (List Char)) (fuel : Nat) pl e,
       hasSentinel raw = false →
       PtyShellExpect.expect_match fuel rc raw (PtyShellExpect.init chunks) =
         some (pl, e) →
       e = Except.error ShellExpectEOF.mk ∨
         ∃ i tm st', e = Except.ok (ExpectRes.matched i tm, st')) ∧
    (∀ (rc : List Char → List Char → Bool) (raw : List Pattern) (fuel : Nat),
       hasSentinel raw = false →
       PtyShellExpect.expect_match (fuel + 1) rc raw (PtyShellExpect.init []) =
         some (compilePatterns rc raw, Except.error ShellExpectEOF.mk)) := by
  constructor
  · intro rc raw chunks fuel pl e hs h
    rw [PtyShellExpect.expect_match] at h
    rcases Option.map_eq_some'.mp h with ⟨e', he', hpe⟩
    injection hpe with hp1 hp2
    rw [hp2] at he'
    have hs' : hasSentinel (compilePatterns rc raw) = false := by
      rw [hasSentinel_compilePatterns]
      exact hs
    exact expectLoop_shape (compilePatterns rc raw) hs' fuel _ e he'
  · intro rc raw fuel hs
    have hs' : hasSentinel (compilePatterns rc raw) = false := by
      rw [hasSentinel_compilePatterns]
      exact hs
    rw [PtyShellExpect.expect_match, expectLoop]
    simp [PtyShellExpect.init, LineIterator.next_line, hs']

/-- C1 witness: a sentinel-free single-pattern list against the empty
stream raises on the first call. -/
theorem expect_eof_without_sentinel_raises_witness :
    (Except.error ShellExpectEOF.mk :
        Except ShellExpectEOF (ExpectRes × PtyShellExpect)) =
      Except.error ShellExpectEOF.mk ∨
    ∃ i tm st',
      (Except.error ShellExpectEOF.mk :
          Except ShellExpectEOF (ExpectRes × PtyShellExpect)) =
        Except.ok (ExpectRes.matched i tm, st') :=
  expect_eof_without_sentinel_raises.1 compileLiteral
    [Pattern.str "X".data] [] 1
    (compilePatterns compileLiteral [Pattern.str "X".data])
    (Except.error ShellExpectEOF.mk) rfl
    (expect_eof_without_sentinel_raises.2 compileLiteral
      [Pattern.str "X".data] 0 rfl)

/-- C10: `expect_match` replaces, before its match loop begins, every
string element of the caller's pattern list in place by its compiled
regular expression; sentinel and pre-compiled elements are left unchanged,
the length is preserved, and the compiled list is what the caller observes
in every outcome of the call. -/
theorem expect_match_compiles_patterns
    (rc : List Char → List Char → Bool) (raw : List Pattern) :
    (compilePatterns rc raw).length = raw.length ∧
    (∀ (i : Nat) (s : List Char), raw[i]? = some (Pattern.str s) →
      (compilePatterns rc raw)[i]? = some (Pattern.compiled (rc s))) ∧
    (∀ (i : Nat) (p : Pattern), raw[i]? = some p →
      (∀ s, p ≠ Pattern.str s) →
      (compilePatterns rc raw)[i]? = some p) ∧
    (∀ (fuel : Nat) (st : PtyShellExpect) res,
      PtyShellExpect.expect_match fuel rc raw st = some res →
      res.1 = compilePatterns rc raw) := by
  refine ⟨List.length_map raw (compileStep rc), ?_, ?_, ?_⟩
  · intro i s hi
    rw [compilePatterns, List.getElem?_map, hi]
    rfl
  · intro i p hi hp
    rw [compilePatterns, List.getElem?_map, hi]
    cases p with
    | str s => exact absurd rfl (hp s)
    | compiled m => rfl
    | sentinel => rfl
  · intro fuel st res h
    rw [PtyShellExpect.expect_match] at h
    rcases Option.map_eq_some'.mp h with ⟨e, he, hpe⟩
    rw [← hpe]

/-- C10 witness: the compile step on the list `["a", EOF]` and the visible
result of a first `expect_match` call using it. -/
theorem expect_match_compiles_patterns_witness :
    (compilePatterns compileLiteral
        [Pattern.str "a".data, Pattern.sentinel]).length = 2 ∧
    (compilePatterns compileLiteral
        [Pattern.str "a".data, Pattern.sentinel])[0]? =
      some (Pattern.compiled (compileLiteral "a".data)) ∧
    (compilePatterns compileLiteral
        [Pattern.str "a".data, Pattern.sentinel])[1]? =
      some Pattern.sentinel ∧
    (compilePatterns compileLiteral [Pattern.str "a".data, Pattern.sentinel],
        (Except.ok (ExpectRes.eofMatched 1,
            (⟨⟨[], []⟩, [], [LineToken.eof]⟩ : PtyShellExpect)) :
          Except ShellExpectEOF (ExpectRes × PtyShellExpect))).1 =
      compilePatterns compileLiteral [Pattern.str "a".data, Pattern.sentinel] :=
  ⟨(expect_match_compiles_patterns compileLiteral
      [Pattern.str "a".data, Pattern.sentinel]).1,
    (expect_match_compiles_patterns compileLiteral
      [Pattern.str "a".data, Pattern.sentinel]).2.1 0 "a".data rfl,
    (expect_match_compiles_patterns compileLiteral
      [Pattern.str "a".data, Pattern.sentinel]).2.2.1 1 Pattern.sentinel rfl
      (fun _ h => Pattern.noConfusion h),
    (expect_match_compiles_patterns compileLiteral
      [Pattern.str "a".data, Pattern.sentinel]).2.2.2 1
      (PtyShellExpect.init []) _ rfl⟩

/-- C3 counterexample: with a further chunk still pending (the stream has
not signaled end-of-stream), a buffered text with no terminator and no
pattern match is emitted immediately as an unmatched line and the pending
buffer is cleared — it is not retained, and `NoLineYet` is not reported,
contradicting the claim. -/
theorem next_line_partial_flush_counterexample :
    LineIterator.next_line [Pattern.compiled (compileLiteral "zz".data)]
        ⟨["more".data], "cd".data⟩ =
      (LineToken.unmatched "cd".data, ⟨["more".data], []⟩) ∧
    (LineIterator.next_line [Pattern.compiled (compileLiteral "zz".data)]
        ⟨["more".data], "cd".data⟩).1 ≠ LineToken.noLine :=
  ⟨by decide, by decide⟩

/-- C3 (amended): when the scan reaches the end of a non-empty buffer
without a terminator and without any pattern matching, the whole buffer is
emitted at once as an unmatched line and the pending buffer is cleared,
whether or not the stream has signaled end-of-stream; `NoLineYet` is
reported only when the pending buffer was empty and the read returned
empty text. -/
theorem next_line_partial_buffer_flushed :
    (∀ (pats : List Pattern) (chunks : List (List Char)) (b : List Char),
      b ≠ [] → '\n' ∉ b →
      (∀ n, n < b.length →
        firstMatchAux pats 0 (b.take (n + 1)) = none) →
      LineIterator.next_line pats ⟨chunks, b⟩ =
        (LineToken.unmatched b, ⟨chunks, []⟩)) ∧
    (∀ (pats : List Pattern) (st : LineIterator),
      (LineIterator.next_line pats st).1 = LineToken.noLine →
      st.buffer = [] ∧ st.chunks.head? = some []) := by
  constructor
  · intro pats chunks b hb hlf hnm
    rcases b with _ | ⟨c, bs⟩
    · exact absurd rfl hb
    · have hred : LineIterator.next_line pats ⟨chunks, c :: bs⟩ =
          nextLineScan pats chunks (c :: bs) := rfl
      rw [hred, nextLineScan,
        scanLoop_eq pats (c :: bs) (c :: bs) 0 none
          (List.drop_zero (c :: bs)).symm]
      have hfold : (scannedPrefixes (c :: bs) 0).foldl
          (matchStep pats) none = none := by
        apply foldl_matchStep_none
        intro pre hpre
        rw [scannedPrefixes] at hpre
        rcases List.mem_map.mp hpre with ⟨p, hp, hpeq⟩
        rw [List.mem_range, List.drop_zero] at hp
        have hlt : p < (c :: bs).length :=
          Nat.lt_of_lt_of_le hp (testedCount_le_length (c :: bs))
        rw [← hpeq]
        have harith : 0 + p + 1 = p + 1 := by omega
        rw [harith]
        exact hnm p hlt
      have hterm : termLen (c :: bs) = (c :: bs).length :=
        termLen_of_no_lf hlf
      simp only [hfold, hterm, Nat.zero_add, List.take_length,
        List.drop_length]
  · intro pats st h
    rcases st with ⟨chunks, buffer⟩
    rcases buffer with _ | ⟨c, bs⟩
    · rcases chunks with _ | ⟨ch, rest⟩
      · exact absurd h (by simp [LineIterator.next_line])
      · by_cases hc : ch = []
        · subst hc
          exact ⟨rfl, rfl⟩
        · have hred : LineIterator.next_line pats ⟨ch :: rest, []⟩ =
              nextLineScan pats rest ch := by
            simp [LineIterator.next_line, hc]
          rw [hred] at h
          exact absurd h (nextLineScan_fst_ne_noLine pats rest ch)
    · have hred : LineIterator.next_line pats ⟨chunks, c :: bs⟩ =
          nextLineScan pats chunks (c :: bs) := rfl
      rw [hred] at h
      exact absurd h (nextLineScan_fst_ne_noLine pats chunks (c :: bs))

/-- C3 amended-claim witness: the flush rule applied to buffer `"ab"` with
a sentinel-only pattern list, and the `NoLineYet` condition applied to an
empty buffer with an empty read. -/
theorem next_line_partial_buffer_flushed_witness :
    LineIterator.next_line [Pattern.sentinel] ⟨[], "ab".data⟩ =
      (LineToken.unmatched "ab".data, ⟨[], []⟩) ∧
    ((⟨[[]], []⟩ : LineIterator).buffer = [] ∧
      (⟨[[]], []⟩ : LineIterator).chunks.head? = some []) :=
  ⟨next_line_partial_buffer_flushed.1 [Pattern.sentinel] [] "ab".data
      (by decide) (by decide) (by decide),
    next_line_partial_buffer_flushed.2 [] ⟨[[]], []⟩ rfl⟩

/-- C4 counterexample: with buffer `"ab\ncd"` and the single literal
pattern `"ab"`, the pattern matches the prefix `"ab"` before the scan
reaches the terminator, yet `next_line` does not stop at the match point:
the `"\n"` is consumed with the line (the buffer is left at `"cd"`, not
`"\ncd"`), contradicting the claim that the terminator stays buffered. -/
theorem next_line_terminator_consumed_counterexample :
    LineIterator.next_line [Pattern.compiled (compileLiteral "ab".data)]
        ⟨[], "ab\ncd".data⟩ =
      (LineToken.matched 0 "ab\n".data, ⟨[], "cd".data⟩) ∧
    (LineIterator.next_line [Pattern.compiled (compileLiteral "ab".data)]
        ⟨[], "ab\ncd".data⟩).2.buffer ≠ '\n' :: "cd".data :=
  ⟨by decide, by decide⟩

/-- C4 (amended): a pattern match does not shorten the scan: the number of
characters `next_line` consumes from a non-empty buffer is determined
solely by the position of the first line terminator — a terminator
following the matched text is consumed along with the line — and the call
returns without consuming a terminator only when the buffer contains no
`"\n"`, in which case the entire buffer is consumed. -/
theorem next_line_consumption_terminator_driven
    (pats : List Pattern) (chunks : List (List Char)) (b : List Char)
    (hb : b ≠ []) :
    (LineIterator.next_line pats ⟨chunks, b⟩).2 =
      ⟨chunks, b.drop (termLen b)⟩ ∧
    ('\n' ∉ b → termLen b = b.length) := by
  constructor
  · rcases b with _ | ⟨c, bs⟩
    · exact absurd rfl hb
    · have hred : LineIterator.next_line pats ⟨chunks, c :: bs⟩ =
          nextLineScan pats chunks (c :: bs) := rfl
      rw [hred, nextLineScan,
        scanLoop_eq pats (c :: bs) (c :: bs) 0 none
          (List.drop_zero (c :: bs)).symm]
      rcases ((scannedPrefixes (c :: bs) 0).foldl
          (matchStep pats) none) with _ | fm <;> simp
  · exact fun h => termLen_of_no_lf h

/-- C4 amended-claim witness: consumption of the terminator-free buffer
`"xy"` runs to the end of the buffer. -/
theorem next_line_consumption_terminator_driven_witness :
    (LineIterator.next_line [] ⟨[], "xy".data⟩).2 =
      ⟨[], "xy".data.drop (termLen "xy".data)⟩ ∧
    termLen "xy".data = "xy".data.length :=
  ⟨(next_line_consumption_terminator_driven [] [] "xy".data (by decide)).1,
    (next_line_consumption_terminator_driven [] [] "xy".data
      (by decide)).2 (by decide)⟩

/-- C5 counterexample: with patterns `["xy", "x"]` (as literal matchers)
and buffer `"xy\n"`, the first prefix length at which any pattern matches
is `"x"`, where pattern 1 wins; yet the reported match has index 0,
because the scan re-tested at the longer prefix `"xy"` and overwrote the
record — the reported index was changed in favor of a longer match found
later in the scan, contradicting the claim. -/
theorem next_line_match_overwrite_counterexample :
    firstMatchAux
        [Pattern.compiled (compileLiteral "xy".data),
          Pattern.compiled (compileLiteral "x".data)] 0 "x".data = some 1 ∧
    (LineIterator.next_line
        [Pattern.compiled (compileLiteral "xy".data),
          Pattern.compiled (compileLiteral "x".data)]
        ⟨[], "xy\n".data⟩).1 = LineToken.matched 0 "xy\n".data :=
  ⟨by decide, by decide⟩

/-- C5 (amended): within one prefix length the non-sentinel patterns are
tested in list order and the first success wins; but each later prefix
length at which any pattern succeeds overwrites the recorded match, so the
scan reports the record from the longest scanned prefix with a success —
the scan's result is the left fold of the per-prefix probe over all
scanned prefixes in order. -/
theorem scan_last_match_wins :
    (∀ (pats : List Pattern) (b : List Char),
      scanLoop pats b b 0 none =
        (termLen b, (scannedPrefixes b 0).foldl (matchStep pats) none)) ∧
    (∀ (pats : List Pattern) (f : Option FoundMatch) (pre : List Char)
       (j : Nat),
      firstMatchAux pats 0 pre = some j →
      matchStep pats f pre = some ⟨j, pre⟩) ∧
    (∀ (pats : List Pattern) (pre : List Char) (j : Nat),
      firstMatchAux pats 0 pre = some j →
      ∃ p, pats[j]? = some p ∧ patActive p pre = true ∧
        ∀ t q, t < j → pats[t]? = some q → patActive q pre = false) := by
  refine ⟨?_, ?_, ?_⟩
  · intro pats b
    have h := scanLoop_eq pats b b 0 none (List.drop_zero b).symm
    rwa [Nat.zero_add] at h
  · intro pats f pre j h
    rcases pats with _ | ⟨p, rest⟩
    · exact absurd h (by simp [firstMatchAux])
    · rw [matchStep, h]
      rfl
  · intro pats pre j h
    exact firstMatchAux_order pats pre j h

/-- C5 amended-claim witness: the characterisation applied to the
counter-scenario patterns, the overwrite rule applied with a non-empty
accumulator, and the list-order rule at prefix `"x"`. -/
theorem scan_last_match_wins_witness :
    scanLoop [Pattern.compiled (compileLiteral "xy".data),
        Pattern.compiled (compileLiteral "x".data)] "xy\n".data
        "xy\n".data 0 none =
      (termLen "xy\n".data,
        (scannedPrefixes "xy\n".data 0).foldl
          (matchStep [Pattern.compiled (compileLiteral "xy".data),
            Pattern.compiled (compileLiteral "x".data)]) none) ∧
    matchStep [Pattern.compiled (compileLiteral "xy".data),
        Pattern.compiled (compileLiteral "x".data)]
        (some ⟨5, "q".data⟩) "x".data = some ⟨1, "x".data⟩ ∧
    ∃ p, [Pattern.compiled (compileLiteral "xy".data),
        Pattern.compiled (compileLiteral "x".data)][1]? = some p ∧
      patActive p "x".data = true ∧
      ∀ t q, t < 1 →
        [Pattern.compiled (compileLiteral "xy".data),
          Pattern.compiled (compileLiteral "x".data)][t]? = some q →
        patActive q "x".data = false :=
  ⟨scan_last_match_wins.1 _ "xy\n".data,
    scan_last_match_wins.2.1 _ (some ⟨5, "q".data⟩) "x".data 1 (by decide),
    scan_last_match_wins.2.2 _ "x".data 1 (by decide)⟩

/-- C8: for both transport variants the non-blocking read reports
end-of-stream only when the resource is definitively closed and no
collected bytes remain: the local `_read_pty_raw` loop and the remote
`_read` return the EOF sentinel only with an empty byte buffer, return the
collected bytes whenever any were gathered before the closed condition was
observed, and report a transient "nothing available" (empty poll or
`socket.timeout`) as an empty byte string, never as end-of-stream; the
local `_read` primitive itself yields the sentinel exactly for a closed fd
or an `OSError`, and an idle poll yields `b""`. -/
theorem transport_eof_vs_empty :
    (∀ (cont : Nat → Bool) (rd : Nat → LowRead) (fuel k : Nat)
       (buf : List Nat),
       readPtyRawLoop cont rd fuel k buf = some RawReadResult.eofR →
       buf = []) ∧
    (∀ (cont : Nat → Bool) (rd : Nat → LowRead) (fuel k : Nat)
       (buf : List Nat),
       cont k = true → rd k = LowRead.dataR [] →
       readPtyRawLoop cont rd (fuel + 1) k buf =
         some (RawReadResult.bytes buf)) ∧
    (∀ (cont : Nat → Bool) (rd : Nat → LowRead) (fuel k : Nat)
       (buf : List Nat),
       cont k = true → rd k = LowRead.eofR → buf ≠ [] →
       readPtyRawLoop cont rd (fuel + 1) k buf =
         some (RawReadResult.bytes buf)) ∧
    (∀ (rd1 : Nat → Read1) (n k : Nat) (buf : List Nat),
       remoteRead rd1 n k buf = RawReadResult.eofR → buf = []) ∧
    (∀ (rd1 : Nat → Read1) (n k : Nat) (buf : List Nat),
       rd1 k = Read1.timeout1 →
       remoteRead rd1 (n + 1) k buf = RawReadResult.bytes buf) ∧
    (∀ (fdClosed : Bool) (r : OsRead),
       ptyRead fdClosed r = LowRead.eofR ↔
         fdClosed = true ∨ r = OsRead.osError) ∧
    ptyRead false OsRead.notReady = LowRead.dataR [] := by
  refine ⟨readPtyRawLoop_eof_empty, ?_, ?_, remoteRead_eof_empty, ?_, ?_, rfl⟩
  · intro cont rd fuel k buf hc hrd
    rw [readPtyRawLoop, if_pos hc]
    simp [hrd]
  · intro cont rd fuel k buf hc hrd hb
    rw [readPtyRawLoop, if_pos hc]
    simp [hrd, hb]
  · intro rd1 n k buf hrd
    rw [remoteRead]
    simp [hrd]
  · intro fdClosed r
    cases fdClosed <;> cases r <;> simp [ptyRead]

/-- C8 witness: the transport properties applied to concrete read
scripts. -/
theorem transport_eof_vs_empty_witness :
    readPtyRawLoop (fun _ => true) (fun _ => LowRead.dataR []) 1 0 [3] =
      some (RawReadResult.bytes [3]) ∧
    readPtyRawLoop (fun _ => true) (fun _ => LowRead.eofR) 1 0 [7] =
      some (RawReadResult.bytes [7]) ∧
    remoteRead (fun _ => Read1.timeout1) 1 0 [9] =
      RawReadResult.bytes [9] ∧
    ptyRead true OsRead.notReady = LowRead.eofR ∧
    ([] : List Nat) = [] :=
  ⟨transport_eof_vs_empty.2.1 (fun _ => true) (fun _ => LowRead.dataR [])
      0 0 [3] rfl rfl,
    transport_eof_vs_empty.2.2.1 (fun _ => true) (fun _ => LowRead.eofR)
      0 0 [7] rfl rfl (by decide),
    transport_eof_vs_empty.2.2.2.2.1 (fun _ => Read1.timeout1) 0 0 [9] rfl,
    (transport_eof_vs_empty.2.2.2.2.2.1 true OsRead.notReady).mpr
      (Or.inl rfl),
    transport_eof_vs_empty.2.2.2.1 (fun _ => Read1.eof1) 1 0 [] rfl⟩

end AbstractShell
